import Mathlib

/-!
Verification development for the word-picker selection pipeline
(source: index.js, entry point getWords).

The JavaScript source is shallowly embedded below:
  - JS strings are Lean String values; all character operations are modelled
    on the underlying character lists (ASCII semantics, matching the JS
    behavior on the ASCII inputs the pipeline is designed for).
  - The caller-owned mutable History set is modelled by passing the set in
    through the options record and returning the updated set in the result.
  - Math.random is modelled by an explicit stream rand : Nat -> Nat; the
    Fisher-Yates step floor(random * (i+1)) becomes rand t % (i+1), which
    ranges over exactly the same values 0..i.
  - Thrown JS errors become Except.error values carrying the message.
  - The amountOfWords argument is Option Int: none models a non-number
    argument (typeof check), some n a numeric argument.
  - The entropy estimate is modelled as the count of distinct lowercase
    characters; the JS code multiplies this count by the fixed constant
    log2(26), a strictly monotone positive scaling that no claim inspects.
  - The file-loading branch (words.txt / words.js) is peripheral glue out
    of scope per the spec; the embedding takes the word list directly, as
    the customWordsArray branch of the source does.
-/

/-- Lowercase a string character-wise (model of JS toLowerCase on ASCII). -/
def jsLower (s : String) : String := ⟨s.data.map Char.toLower⟩

/-- Uppercase a string character-wise (model of JS toUpperCase on ASCII). -/
def jsUpper (s : String) : String := ⟨s.data.map Char.toUpper⟩

/-- Characters of the lowercased string. -/
def lcData (s : String) : List Char := (jsLower s).data

/-- Substring containment on character lists (model of JS String.includes). -/
def dataHasSub (sub : List Char) : List Char → Bool
  | [] => sub.isEmpty
  | c :: rest => sub.isPrefixOf (c :: rest) || dataHasSub sub rest

/-- Model of JS String.includes. -/
def strIncludes (w sub : String) : Bool := dataHasSub sub.data w.data

/-- Model of JS String.startsWith. -/
def strStarts (w p : String) : Bool := p.data.isPrefixOf w.data

/-- Model of JS String.endsWith. -/
def strEnds (w s : String) : Bool := s.data.isSuffixOf w.data

/-- Lexicographic comparison of character lists by code point, the order
localeCompare realizes on same-case ASCII letters. -/
def charsLe : List Char → List Char → Bool
  | [], _ => true
  | _ :: _, [] => false
  | a :: as, b :: bs =>
    if a.toNat < b.toNat then true
    else if b.toNat < a.toNat then false
    else charsLe as bs

/-- Case-insensitive string comparison, model of
a.toLowerCase().localeCompare(b.toLowerCase()) <= 0 on ASCII. -/
def ciLe (a b : String) : Bool := charsLe (lcData a) (lcData b)

/-- Model of JS slice(-2): the last two characters (the whole string when
shorter). -/
def takeRight2 (s : String) : String := ⟨s.data.drop (s.data.length - 2)⟩

/-- Model of word.charAt(0).toUpperCase() + word.slice(1). -/
def capitalizeJs (w : String) : String :=
  match w.data with
  | [] => ""
  | c :: rest => ⟨Char.toUpper c :: rest⟩

/-- Model of selectedWords.join(", "). -/
def joinComma : List String → String
  | [] => ""
  | [w] => w
  | w :: rest => w ++ ", " ++ joinComma rest

/-- Size of new Set(word.toLowerCase()): distinct lowercase characters. -/
def distinctLowerCount (w : String) : Nat := (lcData w).dedup.length

/-- Per-letter Scrabble point table from the source (unknown characters
score 0). -/
def scrabbleCharScore (c : Char) : Int :=
  match c with
  | 'a' => 1 | 'b' => 3 | 'c' => 3 | 'd' => 2 | 'e' => 1 | 'f' => 4 | 'g' => 2
  | 'h' => 4 | 'i' => 1 | 'j' => 8 | 'k' => 5 | 'l' => 1 | 'm' => 3 | 'n' => 1
  | 'o' => 1 | 'p' => 3 | 'q' => 10 | 'r' => 1 | 's' => 1 | 't' => 1 | 'u' => 1
  | 'v' => 4 | 'w' => 4 | 'x' => 8 | 'y' => 4 | 'z' => 10
  | _ => 0

/-- Model of calculateScrabbleScore from the source. -/
def calculateScrabbleScore (word : String) : Int :=
  (lcData word).foldl (fun acc c => acc + scrabbleCharScore c) 0

/-- The codes table of the soundex helper: vowels map to the empty code,
consonant groups to digit strings, all other characters (h, w, y, digits,
specials) are absent (undefined in JS). -/
def soundexCode (c : Char) : Option String :=
  match c with
  | 'a' | 'e' | 'i' | 'o' | 'u' => some ""
  | 'b' | 'f' | 'p' | 'v' => some "1"
  | 'c' | 'g' | 'j' | 'k' | 'q' | 's' | 'x' | 'z' => some "2"
  | 'd' | 't' => some "3"
  | 'l' => some "4"
  | 'm' | 'n' => some "5"
  | 'r' => some "6"
  | _ => none

/-- One iteration of the soundex forEach loop: push the code when it is
truthy (nonempty) and differs from prev, updating prev. The state is
(soundexArr, prev). -/
def soundexStep (st : List String × String) (c : Char) : List String × String :=
  match soundexCode c with
  | some code => if code ≠ "" ∧ code ≠ st.2 then (st.1 ++ [code], code) else st
  | none => st

/-- Model of the soundex helper. On the empty word the JS code calls
toUpperCase on undefined and throws a TypeError; this is modelled by none. -/
def soundex (word : String) : Option String :=
  match lcData word with
  | [] => none
  | f :: rest =>
    let res := rest.foldl soundexStep ([(⟨[Char.toUpper f]⟩ : String)], "")
    let arr := res.1 ++ List.replicate (4 - res.1.length) "0"
    some (String.join (arr.take 4))

/-- Message of the TypeError raised by soundex on the empty word. -/
def soundexTypeError : String :=
  "TypeError: Cannot read properties of undefined (reading toUpperCase)"

/-- Model of the phoneticDistinct filter pass: keep a word when its soundex
code was not seen before, threading the phoneticMap (here: list of seen
codes); computing soundex of the empty word propagates the TypeError. -/
def phoneticDedup (seen : List String) : List String → Except String (List String)
  | [] => .ok []
  | w :: ws =>
    match soundex w with
    | none => .error soundexTypeError
    | some s =>
      if s ∈ seen then phoneticDedup seen ws
      else
        match phoneticDedup (s :: seen) ws with
        | .error e => .error e
        | .ok rest => .ok (w :: rest)

/-- Metadata record returned when includeMetadata is set. -/
structure WordMeta where
  word : String
  wordLength : Nat
  entropy : Nat
deriving DecidableEq, Repr

/-- Result shapes of getWords: plain word array, joined string, or
metadata records. -/
inductive GetWordsResult where
  | arr (words : List String)
  | str (s : String)
  | meta (items : List WordMeta)
deriving DecidableEq, Repr

/-- The options bag destructured at the top of getWords. Fields that JS
leaves undefined by default are Option-typed with default none; booleans
carry the destructuring defaults of the source. Function-typed options are
modelled as Lean functions (customShuffle returns the permuted list, since
the JS function mutates the array in place). The fields batchSize,
validateWords, minEntropy, returnEntropy, seed, includeDefinitions and
includeExamples are destructured by the source but never used afterwards;
they are kept here for faithfulness. -/
structure Options where
  lengthMin : Option Int := none
  lengthMax : Option Int := none
  fixLength : Option Int := none
  reverse : Bool := false
  asString : Bool := false
  sort : Option String := none
  caseOption : Option String := none
  filterStartsWith : Option (List String) := none
  filterEndsWith : Option (List String) := none
  excludeSubstrings : Option (List String) := none
  blacklist : Option (List String) := none
  whitelist : Option (List String) := none
  languages : Option (List String) := none
  excludeAmbiguous : Bool := false
  pattern : Option (String → Bool) := none
  phoneticDistinct : Bool := true
  includeMetadata : Bool := false
  history : Finset String := ∅
  seed : Option Int := none
  weightedSelection : Option (String → Option Int) := none
  customShuffle : Option (List String → List String) := none
  batchSize : Option Int := none
  validateWords : Option (String → Bool) := none
  uniqueCharacters : Bool := false
  maxRepeatLetters : Option Int := none
  allowNumbers : Bool := false
  allowSpecialChars : Bool := false
  minEntropy : Option Int := none
  returnEntropy : Bool := false
  customEntropyCalculator : Option (String → Nat) := none
  syllableCount : Option Int := none
  excludePartsOfSpeech : Option (List String) := none
  includePartsOfSpeech : Option (List String) := none
  limitSyllables : Option Int := none
  excludeWordOrigins : Option (List String) := none
  includeWordOrigins : Option (List String) := none
  excludeProperNouns : Bool := false
  excludeSlang : Bool := false
  includeDefinitions : Bool := false
  includeExamples : Bool := false
  synonyms : Option (List String) := none
  excludeHomonyms : Bool := false
  includeHomonyms : Bool := false
  excludeCompoundWords : Bool := false
  excludeAbbreviations : Bool := false
  onlyMonosyllabic : Bool := false
  onlyPolysyllabic : Bool := false
  limitVowels : Option (List String) := none
  excludeSpecificVowels : Option (List String) := none
  includeRhymeWith : Option String := none
  excludeRhymeWith : Option String := none
  scrabbleScoreRange : Option (Int × Int) := none
  excludeLetters : Option (List String) := none
  includeLetters : Option (List String) := none
  mustContainAllLetters : Option (List String) := none
  mustContainAnyLetters : Option (List String) := none
  excludeWordsWithRepeatingLetters : Bool := false
  minConsonants : Option Int := none
  minVowels : Option Int := none
  customFilter : Option (String → Bool) := none

/-- A JS check of the form (opt && Array.isArray(opt) && opt.length > 0):
the option is active when present and nonempty. -/
def listActive : Option (List String) → Bool
  | some l => !l.isEmpty
  | none => false

/-- The compiled case-insensitive ambiguous character class [l1I0O]/i. -/
def isAmbiguousChar (c : Char) : Bool :=
  decide (c.toLower ∈ ['l', '1', 'i', '0', 'o'])

/-- The fixed JS vowel class [aeiou]. -/
def isVowel (c : Char) : Bool := decide (c ∈ ['a', 'e', 'i', 'o', 'u'])

/-- Whitelist pass: when a whitelist (even an empty one) is supplied, only
its lowercase members pass. -/
def passWhitelist (o : Options) (word : String) : Bool :=
  match o.whitelist with
  | none => true
  | some wl => decide (jsLower word ∈ wl.map jsLower)

/-- Blacklist pass: lowercase members of a supplied blacklist are rejected. -/
def passBlacklist (o : Options) (word : String) : Bool :=
  match o.blacklist with
  | none => true
  | some bl => !decide (jsLower word ∈ bl.map jsLower)

/-- Languages pass: a nonempty languages array rejects every word
(unsupported dimension; words are plain strings). -/
def passLanguages (o : Options) (_word : String) : Bool :=
  !listActive o.languages

/-- Exact-length pass. -/
def passFixLength (o : Options) (word : String) : Bool :=
  match o.fixLength with
  | none => true
  | some n => decide ((word.data.length : Int) = n)

/-- Minimum-length pass. -/
def passLengthMin (o : Options) (word : String) : Bool :=
  match o.lengthMin with
  | none => true
  | some n => !decide ((word.data.length : Int) < n)

/-- Maximum-length pass. -/
def passLengthMax (o : Options) (word : String) : Bool :=
  match o.lengthMax with
  | none => true
  | some n => !decide (n < (word.data.length : Int))

/-- Ambiguous-characters pass: reject words matched by [l1I0O]/i. -/
def passExcludeAmbiguous (o : Options) (word : String) : Bool :=
  if o.excludeAmbiguous then !word.data.any isAmbiguousChar else true

/-- Starting-substring pass: keep only words starting with some listed
value (case-insensitive), when the list is supplied nonempty. -/
def passFilterStartsWith (o : Options) (word : String) : Bool :=
  match o.filterStartsWith with
  | none => true
  | some l =>
    if l.isEmpty then true
    else l.any (fun p => strStarts (jsLower word) (jsLower p))

/-- Ending-substring pass. -/
def passFilterEndsWith (o : Options) (word : String) : Bool :=
  match o.filterEndsWith with
  | none => true
  | some l =>
    if l.isEmpty then true
    else l.any (fun s => strEnds (jsLower word) (jsLower s))

/-- Excluded-substrings pass. -/
def passExcludeSubstrings (o : Options) (word : String) : Bool :=
  match o.excludeSubstrings with
  | none => true
  | some l =>
    if l.isEmpty then true
    else !l.any (fun sub => strIncludes (jsLower word) (jsLower sub))

/-- Regex pass: the compiled pattern is modelled as a predicate. -/
def passPattern (o : Options) (word : String) : Bool :=
  match o.pattern with
  | none => true
  | some p => p word

/-- History pass: words whose lowercase form is already in History are
rejected. -/
def passHistory (o : Options) (word : String) : Bool :=
  !decide (jsLower word ∈ o.history)

/-- Unique-characters pass: the count of distinct lowercase characters must
equal the word length. -/
def passUniqueCharacters (o : Options) (word : String) : Bool :=
  if o.uniqueCharacters then decide (distinctLowerCount word = word.data.length)
  else true

/-- Repeated-letters bound pass (active only for a positive bound). -/
def passMaxRepeatLetters (o : Options) (word : String) : Bool :=
  match o.maxRepeatLetters with
  | none => true
  | some m =>
    if 0 < m then
      !(lcData word).any (fun c => decide (m < ((lcData word).count c : Int)))
    else true

/-- Digits pass: with allowNumbers false any digit rejects the word. -/
def passAllowNumbers (o : Options) (word : String) : Bool :=
  if o.allowNumbers then true else !word.data.any Char.isDigit

/-- Special-characters pass: with allowSpecialChars false any character
outside [a-zA-Z] rejects the word. -/
def passAllowSpecialChars (o : Options) (word : String) : Bool :=
  if o.allowSpecialChars then true else !word.data.any (fun c => !c.isAlpha)

/-- Unsupported dimension: any numeric syllableCount rejects every word. -/
def passSyllableCount (o : Options) (_word : String) : Bool :=
  !o.syllableCount.isSome

/-- Unsupported dimension: nonempty excludePartsOfSpeech rejects all. -/
def passExcludePartsOfSpeech (o : Options) (_word : String) : Bool :=
  !listActive o.excludePartsOfSpeech

/-- Unsupported dimension: nonempty includePartsOfSpeech rejects all. -/
def passIncludePartsOfSpeech (o : Options) (_word : String) : Bool :=
  !listActive o.includePartsOfSpeech

/-- Unsupported dimension: any numeric limitSyllables rejects all. -/
def passLimitSyllables (o : Options) (_word : String) : Bool :=
  !o.limitSyllables.isSome

/-- Unsupported dimension: nonempty excludeWordOrigins rejects all. -/
def passExcludeWordOrigins (o : Options) (_word : String) : Bool :=
  !listActive o.excludeWordOrigins

/-- Unsupported dimension: nonempty includeWordOrigins rejects all. -/
def passIncludeWordOrigins (o : Options) (_word : String) : Bool :=
  !listActive o.includeWordOrigins

/-- Unsupported dimension: excludeProperNouns true rejects all. -/
def passExcludeProperNouns (o : Options) (_word : String) : Bool :=
  !o.excludeProperNouns

/-- Unsupported dimension: excludeSlang true rejects all. -/
def passExcludeSlang (o : Options) (_word : String) : Bool :=
  !o.excludeSlang

/-- Unsupported dimension: nonempty synonyms rejects all at filter time. -/
def passSynonyms (o : Options) (_word : String) : Bool :=
  !listActive o.synonyms

/-- Unsupported dimension: excludeHomonyms true rejects all. -/
def passExcludeHomonyms (o : Options) (_word : String) : Bool :=
  !o.excludeHomonyms

/-- Unsupported dimension: includeHomonyms true rejects all. -/
def passIncludeHomonyms (o : Options) (_word : String) : Bool :=
  !o.includeHomonyms

/-- Unsupported dimension: excludeCompoundWords true rejects all. -/
def passExcludeCompoundWords (o : Options) (_word : String) : Bool :=
  !o.excludeCompoundWords

/-- Unsupported dimension: excludeAbbreviations true rejects all. -/
def passExcludeAbbreviations (o : Options) (_word : String) : Bool :=
  !o.excludeAbbreviations

/-- Unsupported dimension: onlyMonosyllabic true rejects all. -/
def passOnlyMonosyllabic (o : Options) (_word : String) : Bool :=
  !o.onlyMonosyllabic

/-- Unsupported dimension: onlyPolysyllabic true rejects all. -/
def passOnlyPolysyllabic (o : Options) (_word : String) : Bool :=
  !o.onlyPolysyllabic

/-- Vowel-inclusion pass: keep only words containing at least one listed
vowel (substring containment, case-insensitive). -/
def passLimitVowels (o : Options) (word : String) : Bool :=
  match o.limitVowels with
  | none => true
  | some l =>
    if l.isEmpty then true
    else l.any (fun v => strIncludes (jsLower word) (jsLower v))

/-- Vowel-exclusion pass. -/
def passExcludeSpecificVowels (o : Options) (word : String) : Bool :=
  match o.excludeSpecificVowels with
  | none => true
  | some l =>
    if l.isEmpty then true
    else !l.any (fun v => strIncludes (jsLower word) (jsLower v))

/-- Crude rhyme-inclusion pass: the word must end with the last two
characters of the target (truthiness: the empty target deactivates it). -/
def passIncludeRhymeWith (o : Options) (word : String) : Bool :=
  match o.includeRhymeWith with
  | none => true
  | some s =>
    if s = "" then true
    else strEnds (jsLower word) (jsLower (takeRight2 s))

/-- Crude rhyme-exclusion pass. -/
def passExcludeRhymeWith (o : Options) (word : String) : Bool :=
  match o.excludeRhymeWith with
  | none => true
  | some s =>
    if s = "" then true
    else !strEnds (jsLower word) (jsLower (takeRight2 s))

/-- Scrabble-score range pass (inclusive bounds). -/
def passScrabbleScoreRange (o : Options) (word : String) : Bool :=
  match o.scrabbleScoreRange with
  | none => true
  | some (mn, mx) =>
    !(decide (calculateScrabbleScore word < mn) ||
      decide (mx < calculateScrabbleScore word))

/-- Excluded-letters pass. -/
def passExcludeLetters (o : Options) (word : String) : Bool :=
  match o.excludeLetters with
  | none => true
  | some l =>
    if l.isEmpty then true
    else !l.any (fun c => strIncludes (jsLower word) (jsLower c))

/-- Included-letters pass: keep only words containing at least one listed
letter. -/
def passIncludeLetters (o : Options) (word : String) : Bool :=
  match o.includeLetters with
  | none => true
  | some l =>
    if l.isEmpty then true
    else l.any (fun c => strIncludes (jsLower word) (jsLower c))

/-- All-letters pass: keep only words containing every listed letter. -/
def passMustContainAllLetters (o : Options) (word : String) : Bool :=
  match o.mustContainAllLetters with
  | none => true
  | some l =>
    if l.isEmpty then true
    else l.all (fun c => strIncludes (jsLower word) (jsLower c))

/-- Any-letters pass: keep only words containing some listed letter. -/
def passMustContainAnyLetters (o : Options) (word : String) : Bool :=
  match o.mustContainAnyLetters with
  | none => true
  | some l =>
    if l.isEmpty then true
    else l.any (fun c => strIncludes (jsLower word) (jsLower c))

/-- Strict no-repeating-letters pass. -/
def passExcludeWordsWithRepeatingLetters (o : Options) (word : String) : Bool :=
  if o.excludeWordsWithRepeatingLetters then
    decide ((lcData word).dedup.length = (lcData word).length)
  else true

/-- Minimum-consonants pass (consonant = not in [aeiou]). -/
def passMinConsonants (o : Options) (word : String) : Bool :=
  match o.minConsonants with
  | none => true
  | some n => !decide ((((lcData word).filter (fun c => !isVowel c)).length : Int) < n)

/-- Minimum-vowels pass. -/
def passMinVowels (o : Options) (word : String) : Bool :=
  match o.minVowels with
  | none => true
  | some n => !decide ((((lcData word).filter isVowel).length : Int) < n)

/-- Caller-supplied custom predicate pass. -/
def passCustomFilter (o : Options) (word : String) : Bool :=
  match o.customFilter with
  | none => true
  | some f => f word

/-- The big filter callback of getWords: the conjunction of every predicate
in source order. -/
def wordFilter (o : Options) (word : String) : Bool :=
  passWhitelist o word && passBlacklist o word && passLanguages o word &&
  passFixLength o word && passLengthMin o word && passLengthMax o word &&
  passExcludeAmbiguous o word && passFilterStartsWith o word &&
  passFilterEndsWith o word && passExcludeSubstrings o word &&
  passPattern o word && passHistory o word && passUniqueCharacters o word &&
  passMaxRepeatLetters o word && passAllowNumbers o word &&
  passAllowSpecialChars o word && passSyllableCount o word &&
  passExcludePartsOfSpeech o word && passIncludePartsOfSpeech o word &&
  passLimitSyllables o word && passExcludeWordOrigins o word &&
  passIncludeWordOrigins o word && passExcludeProperNouns o word &&
  passExcludeSlang o word && passSynonyms o word &&
  passExcludeHomonyms o word && passIncludeHomonyms o word &&
  passExcludeCompoundWords o word && passExcludeAbbreviations o word &&
  passOnlyMonosyllabic o word && passOnlyPolysyllabic o word &&
  passLimitVowels o word && passExcludeSpecificVowels o word &&
  passIncludeRhymeWith o word && passExcludeRhymeWith o word &&
  passScrabbleScoreRange o word && passExcludeLetters o word &&
  passIncludeLetters o word && passMustContainAllLetters o word &&
  passMustContainAnyLetters o word &&
  passExcludeWordsWithRepeatingLetters o word && passMinConsonants o word &&
  passMinVowels o word && passCustomFilter o word

/-- Predicate Filter Stage: defaultWords.filter(word => ...). -/
def filterStage (o : Options) (words : List String) : List String :=
  words.filter (wordFilter o)

/-- Phonetic Dedup Stage, active when phoneticDistinct is set. -/
def dedupStage (o : Options) (l : List String) : Except String (List String) :=
  if o.phoneticDistinct then phoneticDedup [] l else .ok l

/-- Model of weightedSelection[word.toLowerCase()] || 1: an absent value,
or the falsy 0, falls back to 1. -/
def jsWeight (v : Option Int) : Int :=
  match v with
  | none => 1
  | some w => if w = 0 then 1 else w

/-- Weighted pool expansion: each word repeated weight times (a negative
weight yields zero copies, as the JS for-loop does not run). -/
def weightExpand (wsel : String → Option Int) (l : List String) : List String :=
  l.flatMap (fun w => List.replicate (jsWeight (wsel (jsLower w))).toNat w)

/-- Weighting Stage. -/
def weightStage (o : Options) (l : List String) : List String :=
  match o.weightedSelection with
  | some wsel => weightExpand wsel l
  | none => l

/-- Swap of two positions of a list (identity out of bounds). -/
def swapL (l : List String) (i j : Nat) : List String :=
  match l[i]?, l[j]? with
  | some a, some b => (l.set i b).set j a
  | _, _ => l

/-- The Fisher-Yates loop: i runs from the last index down to 1, consuming
one random draw per step; rand t % (i+1) models floor(random * (i+1)). -/
def fyGo (rand : Nat → Nat) : Nat → Nat → List String → List String
  | _, 0, l => l
  | t, i+1, l => fyGo rand (t+1) i (swapL l (i+1) (rand t % (i+2)))

/-- Default shuffle of the source (Fisher-Yates with ambient randomness). -/
def fisherYates (rand : Nat → Nat) (l : List String) : List String :=
  fyGo rand 0 (l.length - 1) l

/-- Ordering Stage, shuffle part: the caller-supplied customShuffle when
present, else the default Fisher-Yates. -/
def shuffleStage (o : Options) (rand : Nat → Nat) (l : List String) : List String :=
  match o.customShuffle with
  | some f => f l
  | none => fisherYates rand l

/-- Stable insertion of one element into a sorted list. -/
def insertLe (le : String → String → Bool) (a : String) : List String → List String
  | [] => [a]
  | b :: bs => if le a b then a :: b :: bs else b :: insertLe le a bs

/-- Stable sort by a Boolean comparison (model of the stable JS
Array.prototype.sort). -/
def sortLe (le : String → String → Bool) : List String → List String
  | [] => []
  | a :: as => insertLe le a (sortLe le as)

/-- Ordering Stage, sort part: case-insensitive ascending or descending
sort when requested, overriding the shuffle order. -/
def sortStage (o : Options) (l : List String) : List String :=
  if o.sort = some "asc" then sortLe (fun a b => ciLe a b) l
  else if o.sort = some "desc" then sortLe (fun a b => ciLe b a) l
  else l

/-- The selection loop: stop before pushing once the requested amount is
reached, and stop after pushing once attempts reaches 1000. -/
def selectGo (amount : Int) : List String → List String → Nat → List String
  | [], acc, _ => acc
  | w :: ws, acc, attempts =>
    if amount ≤ (acc.length : Int) then acc
    else if 1000 ≤ attempts + 1 then acc ++ [w]
    else selectGo amount ws (acc ++ [w]) (attempts + 1)

/-- Selection Stage. -/
def selectStage (amount : Int) (l : List String) : List String :=
  selectGo amount l [] 0

/-- Case transform of the selected words. -/
def applyCase (o : Options) (l : List String) : List String :=
  if o.caseOption = some "upper" then l.map jsUpper
  else if o.caseOption = some "lower" then l.map jsLower
  else if o.caseOption = some "capitalize" then l.map capitalizeJs
  else l

/-- The synonyms-inclusion branch of the source: with a nonempty synonyms
array the flatMap returns [] for every word, emptying the selection. -/
def synonymsStage (o : Options) (l : List String) : List String :=
  if listActive o.synonyms then [] else l

/-- Entropy estimate used for metadata: the custom calculator when
supplied, else the distinct lowercase character count (the JS code scales
the count by the constant log2(26)). -/
def calculateEntropy (o : Options) (word : String) : Nat :=
  match o.customEntropyCalculator with
  | some f => f word
  | none => distinctLowerCount word

/-- History update: selectedWords.forEach(word => history.add(lowercase)). -/
def historyStage (o : Options) (l : List String) : Finset String :=
  l.foldl (fun h w => insert (jsLower w) h) o.history

/-- Result shaping: joined string, metadata records, or plain array. -/
def shapeStage (o : Options) (l : List String) : GetWordsResult :=
  if o.asString then .str (joinComma l)
  else if o.includeMetadata then
    .meta (l.map (fun w => ⟨w, w.data.length, calculateEntropy o w⟩))
  else .arr l

/-- Selection and post-processing: truncation, reversal, case transform,
synonyms branch, history update, and result shaping. -/
def postStage (o : Options) (amount : Int) (l : List String) :
    GetWordsResult × Finset String :=
  let selected := selectStage amount l
  let selected := if o.reverse then selected.reverse else selected
  let selected := applyCase o selected
  let selected := synonymsStage o selected
  (shapeStage o selected, historyStage o selected)

/-- The pipeline body after argument validation. -/
def runPipeline (o : Options) (amount : Int) (words : List String)
    (rand : Nat → Nat) : Except String (GetWordsResult × Finset String) :=
  match dedupStage o (filterStage o words) with
  | .error e => .error e
  | .ok deduped =>
    .ok (postStage o amount (sortStage o (shuffleStage o rand (weightStage o deduped))))

/-- Message of the Error thrown by the amountOfWords validation (the JS
message quotes the parameter name). -/
def amountError : String := "amountOfWords must be a positive number."

/-- Model of getWords. The validation throws for every non-number and
every amount below or equal to zero; the early-return branch for a zero
amount is kept exactly as in the source, where the preceding validation
makes it unreachable. -/
def getWords (o : Options) (amountOfWords : Option Int)
    (customWordsArray : List String) (rand : Nat → Nat) :
    Except String (GetWordsResult × Finset String) :=
  match amountOfWords with
  | none => .error amountError
  | some amount =>
    if amount ≤ 0 then .error amountError
    else if amount = 0 then
      .ok ((if o.asString then .str "" else .arr []), o.history)
    else runPipeline o amount customWordsArray rand

instance {ε α : Type} [DecidableEq ε] [DecidableEq α] : DecidableEq (Except ε α) :=
  fun a b =>
    match a, b with
    | .ok x, .ok y => decidable_of_iff (x = y) (by simp)
    | .error x, .error y => decidable_of_iff (x = y) (by simp)
    | .ok _, .error _ => Decidable.isFalse (fun h => Except.noConfusion h)
    | .error _, .ok _ => Decidable.isFalse (fun h => Except.noConfusion h)

/-- Words of a result: the array itself, the words of the metadata
records, and none recoverable from a joined string. -/
def resultWords : GetWordsResult → List String
  | .arr l => l
  | .str _ => []
  | .meta items => items.map (fun m => m.word)

/-- Number of items of a result (zero for the joined-string shape, whose
item count is not part of the value). -/
def resultCount : GetWordsResult → Nat
  | .arr l => l.length
  | .str _ => 0
  | .meta items => items.length

/-- The all-exclude policy trigger: some unsupported linguistic option is
set, in the sense the source tests (nonempty array, true flag, or any
number for the numeric ones). -/
def unsupportedActive (o : Options) : Bool :=
  listActive o.languages || o.syllableCount.isSome ||
  listActive o.excludePartsOfSpeech || listActive o.includePartsOfSpeech ||
  o.limitSyllables.isSome || listActive o.excludeWordOrigins ||
  listActive o.includeWordOrigins || o.excludeProperNouns || o.excludeSlang ||
  listActive o.synonyms || o.excludeHomonyms || o.includeHomonyms ||
  o.excludeCompoundWords || o.excludeAbbreviations || o.onlyMonosyllabic ||
  o.onlyPolysyllabic

/-- The empty result in the shape the configuration selects. -/
def emptyResult (o : Options) : GetWordsResult :=
  if o.asString then .str ""
  else if o.includeMetadata then .meta []
  else .arr []

example : jsLower "AbC" = "abc" := by decide

example : soundex "apple" = some "A140" := by decide

example : soundex "banana" = some "B500" := by decide

example : soundex "" = none := by decide

example : getWords {} (some 2) ["bat", "cat"] (fun _ => 0) =
    .ok (.arr ["cat", "bat"], insert "bat" (insert "cat" ∅)) := by decide

/-! ### Structural lemmas about the pipeline stages -/

theorem swapL_length (l : List String) (i j : Nat) :
    (swapL l i j).length = l.length := by
  unfold swapL
  split <;> simp

theorem fyGo_length (rand : Nat → Nat) :
    ∀ (i t : Nat) (l : List String), (fyGo rand t i l).length = l.length := by
  intro i
  induction i with
  | zero => intro t l; rfl
  | succ k ih => intro t l; rw [fyGo, ih, swapL_length]

theorem fisherYates_length (rand : Nat → Nat) (l : List String) :
    (fisherYates rand l).length = l.length := fyGo_length rand _ 0 l

theorem insertLe_length (le : String → String → Bool) (a : String)
    (l : List String) : (insertLe le a l).length = l.length + 1 := by
  induction l with
  | nil => rfl
  | cons b bs ih =>
    unfold insertLe
    split
    · simp
    · simp [ih]

theorem sortLe_length (le : String → String → Bool) (l : List String) :
    (sortLe le l).length = l.length := by
  induction l with
  | nil => rfl
  | cons a as ih => rw [sortLe, insertLe_length, ih]; rfl

theorem sortStage_length (o : Options) (l : List String) :
    (sortStage o l).length = l.length := by
  unfold sortStage
  split
  · exact sortLe_length _ l
  · split
    · exact sortLe_length _ l
    · rfl

theorem selectGo_length_le_amount (amount : Int) :
    ∀ (l acc : List String) (attempts : Nat),
      acc.length ≤ amount.toNat →
      (selectGo amount l acc attempts).length ≤ amount.toNat := by
  intro l
  induction l with
  | nil => intro acc attempts h; exact h
  | cons w ws ih =>
    intro acc attempts h
    unfold selectGo
    split
    · exact h
    · rename_i hlt
      have hacc : acc.length + 1 ≤ amount.toNat := by omega
      split
      · simpa using hacc
      · exact ih (acc ++ [w]) (attempts + 1) (by simpa using hacc)

theorem selectGo_length_le_input (amount : Int) :
    ∀ (l acc : List String) (attempts : Nat),
      (selectGo amount l acc attempts).length ≤ acc.length + l.length := by
  intro l
  induction l with
  | nil => intro acc attempts; simp [selectGo]
  | cons w ws ih =>
    intro acc attempts
    unfold selectGo
    split
    · simp
    · split
      · simp
      · calc (selectGo amount ws (acc ++ [w]) (attempts + 1)).length
              ≤ (acc ++ [w]).length + ws.length := ih _ _
          _ = acc.length + (w :: ws).length := by simp; omega

theorem selectStage_length_le (amount : Int) (l : List String) :
    (selectStage amount l).length ≤ min amount.toNat l.length := by
  unfold selectStage
  refine le_min ?_ ?_
  · exact selectGo_length_le_amount amount l [] 0 (by simp)
  · simpa using selectGo_length_le_input amount l [] 0

theorem applyCase_length (o : Options) (l : List String) :
    (applyCase o l).length = l.length := by
  unfold applyCase
  split
  · simp
  · split
    · simp
    · split
      · simp
      · rfl

theorem synonymsStage_length_le (o : Options) (l : List String) :
    (synonymsStage o l).length ≤ l.length := by
  unfold synonymsStage
  split
  · simp
  · exact le_refl _

theorem resultCount_shapeStage_le (o : Options) (l : List String) :
    resultCount (shapeStage o l) ≤ l.length := by
  unfold shapeStage
  split
  · simp [resultCount]
  · split
    · simp [resultCount]
    · simp [resultCount]

theorem getWords_ok_elim (o : Options) (n : Int) (words : List String)
    (rand : Nat → Nat) (res : GetWordsResult) (hset : Finset String)
    (h : getWords o (some n) words rand = .ok (res, hset)) :
    ∃ ded, dedupStage o (filterStage o words) = .ok ded ∧
      (res, hset) =
        postStage o n (sortStage o (shuffleStage o rand (weightStage o ded))) := by
  by_cases h0 : n ≤ 0
  · simp [getWords, h0] at h
  · have h0' : ¬ n = 0 := by omega
    simp only [getWords, if_neg h0, if_neg h0'] at h
    unfold runPipeline at h
    rcases hd : dedupStage o (filterStage o words) with e | ded
    · rw [hd] at h
      simp at h
    · rw [hd] at h
      simp only [Except.ok.injEq] at h
      exact ⟨ded, rfl, h.symm⟩

theorem foldl_insert_grow (l : List String) (s : Finset String) :
    s ⊆ l.foldl (fun h w => insert (jsLower w) h) s ∧
      ∀ w ∈ l, jsLower w ∈ l.foldl (fun h w => insert (jsLower w) h) s := by
  induction l generalizing s with
  | nil => exact ⟨Finset.Subset.refl s, by simp⟩
  | cons a as ih =>
    obtain ⟨hsub, hmem⟩ := ih (insert (jsLower a) s)
    refine ⟨?_, ?_⟩
    · exact Finset.Subset.trans (Finset.subset_insert _ s) hsub
    · intro w hw
      rcases List.mem_cons.mp hw with hw | hw
      · subst hw
        exact hsub (Finset.mem_insert_self _ _)
      · exact hmem w hw

theorem historyStage_spec (o : Options) (l : List String) :
    o.history ⊆ historyStage o l ∧ ∀ w ∈ l, jsLower w ∈ historyStage o l :=
  foldl_insert_grow l o.history

theorem resultWords_shapeStage (o : Options) (l : List String) :
    resultWords (shapeStage o l) = l ∨ resultWords (shapeStage o l) = [] := by
  unfold shapeStage
  split
  · right; rfl
  · split
    · left
      simp only [resultWords, List.map_map]
      exact List.map_id l
    · left; rfl

theorem postStage_history (o : Options) (amount : Int) (l : List String) :
    o.history ⊆ (postStage o amount l).2 ∧
      ∀ w ∈ resultWords (postStage o amount l).1,
        jsLower w ∈ (postStage o amount l).2 := by
  unfold postStage
  obtain ⟨hsub, hmem⟩ := historyStage_spec o
    (synonymsStage o (applyCase o
      (if o.reverse then (selectStage amount l).reverse else selectStage amount l)))
  refine ⟨hsub, ?_⟩
  intro w hw
  rcases resultWords_shapeStage o
      (synonymsStage o (applyCase o
        (if o.reverse then (selectStage amount l).reverse else selectStage amount l)))
    with he | he
  · rw [he] at hw
    exact hmem w hw
  · rw [he] at hw
    cases hw

theorem resultCount_postStage_le (o : Options) (amount : Int) (l : List String) :
    resultCount (postStage o amount l).1 ≤ min amount.toNat l.length := by
  unfold postStage
  calc resultCount (shapeStage o (synonymsStage o (applyCase o
          (if o.reverse then (selectStage amount l).reverse else selectStage amount l))))
      ≤ (synonymsStage o (applyCase o
          (if o.reverse then (selectStage amount l).reverse
            else selectStage amount l))).length := resultCount_shapeStage_le _ _
    _ ≤ (applyCase o (if o.reverse then (selectStage amount l).reverse
          else selectStage amount l)).length := synonymsStage_length_le _ _
    _ = (if o.reverse then (selectStage amount l).reverse
          else selectStage amount l).length := applyCase_length _ _
    _ = (selectStage amount l).length := by split <;> simp
    _ ≤ min amount.toNat l.length := selectStage_length_le amount l

/-! ### Lemmas about the phonetic dedup pass -/

theorem phoneticDedup_sound (l : List String) :
    ∀ (seen out : List String), phoneticDedup seen l = .ok out →
      (∀ w ∈ out, ∃ s, soundex w = some s ∧ s ∉ seen) ∧
      (out.map soundex).Nodup ∧
      (∀ w ∈ out,
        (l.filter (fun v => decide (soundex v = soundex w))).head? = some w) := by
  induction l with
  | nil =>
    intro seen out h
    unfold phoneticDedup at h
    simp only [Except.ok.injEq] at h
    subst h
    exact ⟨by simp, by simp, by simp⟩
  | cons w ws ih =>
    intro seen out h
    unfold phoneticDedup at h
    split at h
    · simp at h
    · rename_i s hs
      split at h
      · rename_i hmem
        obtain ⟨h1, h2, h3⟩ := ih seen out h
        refine ⟨h1, h2, ?_⟩
        intro x hx
        obtain ⟨sx, hsx, hnsx⟩ := h1 x hx
        have hne : soundex w ≠ soundex x := by
          rw [hs, hsx]
          intro hc
          exact hnsx (by cases hc; exact hmem)
        rw [List.filter_cons, if_neg (by simpa using hne)]
        exact h3 x hx
      · rename_i hmem
        split at h
        · simp at h
        · rename_i rest hrec
          simp only [Except.ok.injEq] at h
          subst h
          obtain ⟨h1, h2, h3⟩ := ih (s :: seen) rest hrec
          refine ⟨?_, ?_, ?_⟩
          · intro x hx
            rcases List.mem_cons.mp hx with hx | hx
            · subst hx; exact ⟨s, hs, hmem⟩
            · obtain ⟨sx, hsx, hnsx⟩ := h1 x hx
              exact ⟨sx, hsx, fun hc => hnsx (List.mem_cons_of_mem _ hc)⟩
          · rw [List.map_cons, List.nodup_cons]
            refine ⟨?_, h2⟩
            intro hc
            obtain ⟨x, hx, hxeq⟩ := List.mem_map.mp hc
            obtain ⟨sx, hsx, hnsx⟩ := h1 x hx
            rw [hs] at hxeq
            rw [hsx] at hxeq
            cases hxeq
            exact hnsx (List.mem_cons_self _ _)
          · intro x hx
            rcases List.mem_cons.mp hx with hx | hx
            · subst hx
              rw [List.filter_cons, if_pos (by simp)]
              rfl
            · obtain ⟨sx, hsx, hnsx⟩ := h1 x hx
              have hne : soundex w ≠ soundex x := by
                rw [hs, hsx]
                intro hc
                exact hnsx (by cases hc; exact List.mem_cons_self _ _)
              rw [List.filter_cons, if_neg (by simpa using hne)]
              exact h3 x hx

theorem phoneticDedup_error_of_mem (l : List String) :
    ∀ seen : List String, "" ∈ l →
      phoneticDedup seen l = .error soundexTypeError := by
  induction l with
  | nil => intro seen h; cases h
  | cons w ws ih =>
    intro seen h
    rcases List.mem_cons.mp h with he | hm
    · rw [← he]
      rfl
    · unfold phoneticDedup
      split
      · rfl
      · split
        · exact ih seen hm
        · rw [ih _ hm]

/-! ### The all-exclude policy of unsupported linguistic options -/

theorem wordFilter_false_of_unsupported (o : Options)
    (hu : unsupportedActive o = true) (w : String) : wordFilter o w = false := by
  unfold unsupportedActive at hu
  simp only [Bool.or_eq_true] at hu
  rcases hu with
    (((((((((((((((h | h) | h) | h) | h) | h) | h) | h) | h) | h) | h) | h) |
      h) | h) | h) | h)
  · simp [wordFilter, passLanguages, h]
  · simp [wordFilter, passSyllableCount, h]
  · simp [wordFilter, passExcludePartsOfSpeech, h]
  · simp [wordFilter, passIncludePartsOfSpeech, h]
  · simp [wordFilter, passLimitSyllables, h]
  · simp [wordFilter, passExcludeWordOrigins, h]
  · simp [wordFilter, passIncludeWordOrigins, h]
  · simp [wordFilter, passExcludeProperNouns, h]
  · simp [wordFilter, passExcludeSlang, h]
  · simp [wordFilter, passSynonyms, h]
  · simp [wordFilter, passExcludeHomonyms, h]
  · simp [wordFilter, passIncludeHomonyms, h]
  · simp [wordFilter, passExcludeCompoundWords, h]
  · simp [wordFilter, passExcludeAbbreviations, h]
  · simp [wordFilter, passOnlyMonosyllabic, h]
  · simp [wordFilter, passOnlyPolysyllabic, h]

theorem filterStage_nil_of_unsupported (o : Options)
    (hu : unsupportedActive o = true) (words : List String) :
    filterStage o words = [] := by
  unfold filterStage
  refine List.filter_eq_nil_iff.mpr ?_
  intro w _
  simp [wordFilter_false_of_unsupported o hu w]

theorem dedupStage_nil (o : Options) : dedupStage o [] = .ok [] := by
  unfold dedupStage
  split <;> rfl

theorem weightStage_nil (o : Options) : weightStage o [] = [] := by
  unfold weightStage
  split <;> rfl

theorem shuffleStage_nil (o : Options) (rand : Nat → Nat)
    (hcs : ∀ f, o.customShuffle = some f → f [] = []) :
    shuffleStage o rand [] = [] := by
  unfold shuffleStage
  rcases hc : o.customShuffle with _ | f
  · rfl
  · exact hcs f hc

theorem sortStage_nil (o : Options) : sortStage o [] = [] := by
  unfold sortStage
  split
  · rfl
  · split <;> rfl

theorem postStage_nil (o : Options) (amount : Int) :
    postStage o amount [] = (emptyResult o, o.history) := by
  unfold postStage selectStage selectGo applyCase synonymsStage shapeStage
    emptyResult historyStage
  split
  · split
    · split
      · simp [joinComma]
      · split <;> simp [joinComma]
    · split
      · simp [joinComma]
      · split <;> simp [joinComma]
  · split
    · split
      · simp [joinComma]
      · split <;> simp [joinComma]
    · split
      · simp [joinComma]
      · split <;> simp [joinComma]

/-! ### The weighting stage and the zero-weight fallback -/

theorem weightExpand_cons (wsel : String → Option Int) (w : String)
    (l : List String) :
    weightExpand wsel (w :: l) =
      List.replicate (jsWeight (wsel (jsLower w))).toNat w ++ weightExpand wsel l := by
  unfold weightExpand
  rfl

theorem shuffleStage_length (o : Options) (rand : Nat → Nat) (l : List String)
    (hcs : ∀ f, o.customShuffle = some f → ∀ m, (f m).length = m.length) :
    (shuffleStage o rand l).length = l.length := by
  unfold shuffleStage
  split
  · rename_i f hc
    exact hcs f hc l
  · exact fisherYates_length rand l

theorem weightStage_none (o : Options) (l : List String)
    (hws : o.weightedSelection = none) : weightStage o l = l := by
  unfold weightStage
  split
  · rename_i wsel hw
    rw [hws] at hw
    cases hw
  · rfl

/-! ### Claim theorems -/

/-- Weight mapping sending the word abc to weight 0 and leaving every other
word unlisted. -/
def zeroWeightSel : String → Option Int :=
  fun w => if w = "abc" then some 0 else none

/-- Weight mapping sending the word abc to weight 3 and leaving every other
word unlisted. -/
def threeWeightSel : String → Option Int :=
  fun w => if w = "abc" then some 3 else none

/-- C1: the claim says getWords with amountOfWords = 0 returns the empty
result without throwing. The code throws: the validation rejects every
amount below or equal to zero before the zero fast path is reached, so the
early return at line 119 is dead code and the call with 0 raises the
positive-number configuration error. -/
theorem c1_zero_amount_throws :
    getWords {} (some 0) ["apple"] (fun _ => 0) = .error amountError := by decide

/-- C2 counterexample: with excludeAmbiguous the scenario input yields [],
not ["fish"]: the case-insensitive regex [l1I0O]/i also matches the letter
i of "fish" (against I), so all three words are rejected. -/
theorem c2_counterexample :
    getWords { excludeAmbiguous := true } (some 5) ["Lion", "Owl", "fish"]
        (fun _ => 0) = .ok (.arr [], ∅) ∧
      GetWordsResult.arr [] ≠ GetWordsResult.arr ["fish"] := by decide

/-- C2 amended: under the case-insensitive ambiguous set, "Lion", "Owl" and
also "fish" (whose i matches I) are all excluded, so the call returns the
empty array and leaves History empty, for every random stream. -/
theorem c2_all_excluded (rand : Nat → Nat) :
    getWords { excludeAmbiguous := true } (some 5) ["Lion", "Owl", "fish"]
      rand = .ok (.arr [], ∅) := rfl

/-- C3: the claim says the default shuffle is a deterministic function of
the seed. The code never reads seed: the default shuffle draws from the
ambient Math.random stream, so two calls with the same seed, input and
configuration but different ambient streams give different output orders. -/
theorem c3_seed_ignored :
    getWords { seed := some 42 } (some 2) ["bat", "cat"] (fun _ => 0) ≠
      getWords { seed := some 42 } (some 2) ["bat", "cat"] (fun _ => 1) := by
  decide

/-- C4 counterexample: a word whose weight is 0 is not removed from the
expanded pool: the JS fallback (weightedSelection[w] || 1) treats the falsy
0 as absent, so "abc" with weight 0 still contributes one copy and is
returned. -/
theorem c4_counterexample :
    weightExpand zeroWeightSel ["abc"] = ["abc"] ∧
      getWords { weightedSelection := some zeroWeightSel } (some 1) ["abc"]
        (fun _ => 0) = .ok (.arr ["abc"], insert "abc" ∅) := by
  decide

/-- C4 amended: in the Weighting Stage a word mapped to weight 0 behaves
exactly like a word absent from the mapping: the ||-fallback turns both
into weight 1, so the word contributes exactly one copy to the expanded
pool. -/
theorem c4_zero_weight_is_one (wsel : String → Option Int) (l : List String)
    (w : String)
    (h : wsel (jsLower w) = some 0 ∨ wsel (jsLower w) = none) :
    weightExpand wsel (w :: l) = w :: weightExpand wsel l := by
  rw [weightExpand_cons]
  rcases h with h | h <;> simp [jsWeight, h]

/-- C4 witness: the amended statement evaluated at a mapping sending every
word to weight 0. -/
theorem c4_witness :
    weightExpand (fun _ => some 0) ["abc"] = ["abc"] :=
  c4_zero_weight_is_one (fun _ => some 0) [] "abc" (Or.inl rfl)

/-- C5 counterexample: with a weighted selection the output can be longer
than the number of distinct survivors of filtering and dedup: one surviving
word with weight 3 and amountOfWords 3 yields three output items, violating
the claimed bound min(3, 1) = 1. -/
theorem c5_counterexample :
    getWords { weightedSelection := some threeWeightSel } (some 3) ["abc"]
        (fun _ => 0) = .ok (.arr ["abc", "abc", "abc"], insert "abc" ∅) ∧
      dedupStage { weightedSelection := some threeWeightSel }
          (filterStage { weightedSelection := some threeWeightSel } ["abc"]) =
        .ok ["abc"] ∧
      ¬ (resultCount (.arr ["abc", "abc", "abc"]) ≤
          min ((3 : Int).toNat) (["abc"] : List String).length) := by
  decide

/-- C5 amended: when no weightedSelection is supplied (and any
customShuffle preserves length, as an in-place permutation does), the
number of output items of getWords is at most min(amountOfWords, number of
words surviving the filter and dedup stages). -/
theorem c5_output_bound (o : Options) (n : Int) (words : List String)
    (rand : Nat → Nat) (res : GetWordsResult) (hset : Finset String)
    (ded : List String)
    (hws : o.weightedSelection = none)
    (hcs : ∀ f, o.customShuffle = some f → ∀ m, (f m).length = m.length)
    (hded : dedupStage o (filterStage o words) = .ok ded)
    (h : getWords o (some n) words rand = .ok (res, hset)) :
    resultCount res ≤ min n.toNat ded.length := by
  obtain ⟨ded2, hd2, heq⟩ := getWords_ok_elim o n words rand res hset h
  rw [hded] at hd2
  injection hd2 with hdd
  subst hdd
  have hres : res =
      (postStage o n (sortStage o (shuffleStage o rand (weightStage o ded)))).1 :=
    congrArg Prod.fst heq
  have hlen : (sortStage o (shuffleStage o rand (weightStage o ded))).length =
      ded.length := by
    rw [sortStage_length, shuffleStage_length o rand _ hcs,
      weightStage_none o ded hws]
  rw [hres]
  calc resultCount
        (postStage o n (sortStage o (shuffleStage o rand (weightStage o ded)))).1
      ≤ min n.toNat (sortStage o (shuffleStage o rand (weightStage o ded))).length :=
        resultCount_postStage_le o n _
    _ = min n.toNat ded.length := by rw [hlen]

/-- C5 witness: the amended bound evaluated at the default configuration on
a one-word list. -/
theorem c5_witness :
    resultCount (.arr ["abc"]) ≤ min ((1 : Int).toNat)
      (["abc"] : List String).length :=
  c5_output_bound {} 1 ["abc"] (fun _ => 0) (.arr ["abc"]) (insert "abc" ∅)
    ["abc"] rfl (fun f hf => by cases hf) (by decide) (by decide)

/-- C6: whenever any unsupported linguistic option is set (nonempty array,
true flag, or any number for the numeric ones), every word fails the
filter stage, and getWords returns the empty result of the configured
shape together with the unchanged History, without throwing. The
customShuffle hypothesis only states that a supplied shuffle permutes in
place, hence maps the empty list to itself. -/
theorem c6_unsupported_empty (o : Options) (n : Int) (words : List String)
    (rand : Nat → Nat) (hn : 0 < n)
    (hu : unsupportedActive o = true)
    (hcs : ∀ f, o.customShuffle = some f → f [] = []) :
    getWords o (some n) words rand = .ok (emptyResult o, o.history) := by
  have h1 : ¬ n ≤ 0 := not_le.mpr hn
  have h2 : ¬ n = 0 := by omega
  have hrun : runPipeline o n words rand =
      .ok (postStage o n (sortStage o (shuffleStage o rand (weightStage o [])))) := by
    unfold runPipeline
    rw [filterStage_nil_of_unsupported o hu words, dedupStage_nil]
  simp only [getWords, if_neg h1, if_neg h2, hrun, weightStage_nil,
    shuffleStage_nil o rand hcs, sortStage_nil, postStage_nil]

/-- C6 witness: the theorem evaluated at a configuration with a nonempty
languages array. -/
theorem c6_witness :
    getWords ({ languages := some ["en"] } : Options) (some 1) ["apple"]
      (fun _ => 0) = .ok (emptyResult { languages := some ["en"] },
        ({ languages := some ["en"] } : Options).history) :=
  c6_unsupported_empty { languages := some ["en"] } 1 ["apple"] (fun _ => 0)
    (by decide) (by decide) (fun f hf => by cases hf)

/-- C7: on every normal return the resulting History contains the History
passed in, and the lowercase form of every word of the output (for the
array and metadata shapes; the joined-string shape carries no word list). -/
theorem c7_history_superset (o : Options) (n : Option Int)
    (words : List String) (rand : Nat → Nat) (res : GetWordsResult)
    (hset : Finset String)
    (h : getWords o n words rand = .ok (res, hset)) :
    o.history ⊆ hset ∧ ∀ w ∈ resultWords res, jsLower w ∈ hset := by
  cases n with
  | none => simp [getWords] at h
  | some m =>
    obtain ⟨ded, hd, heq⟩ := getWords_ok_elim o m words rand res hset h
    have hres : res =
        (postStage o m (sortStage o (shuffleStage o rand (weightStage o ded)))).1 :=
      congrArg Prod.fst heq
    have hh : hset =
        (postStage o m (sortStage o (shuffleStage o rand (weightStage o ded)))).2 :=
      congrArg Prod.snd heq
    obtain ⟨hs, hm⟩ := postStage_history o m
      (sortStage o (shuffleStage o rand (weightStage o ded)))
    rw [hres, hh]
    exact ⟨hs, hm⟩

/-- C7 witness: the theorem evaluated at the default configuration on a
one-word list. -/
theorem c7_witness :
    ({} : Options).history ⊆ (insert "abc" ∅ : Finset String) ∧
      ∀ w ∈ resultWords (GetWordsResult.arr ["abc"]),
        jsLower w ∈ (insert "abc" ∅ : Finset String) :=
  c7_history_superset {} (some 1) ["abc"] (fun _ => 0) (.arr ["abc"])
    (insert "abc" ∅) (by decide)

/-- C8: when phoneticDistinct is set, the dedup stage output contains no
two words with the same soundex code, and each surviving word is the first
word of the input carrying its code. -/
theorem c8_dedup_distinct_first (o : Options) (l out : List String)
    (hpd : o.phoneticDistinct = true)
    (h : dedupStage o l = .ok out) :
    ((out.map soundex).Nodup) ∧
      ∀ w ∈ out,
        (l.filter (fun v => decide (soundex v = soundex w))).head? = some w := by
  unfold dedupStage at h
  rw [hpd] at h
  rw [if_pos rfl] at h
  obtain ⟨_, h2, h3⟩ := phoneticDedup_sound l [] out h
  exact ⟨h2, h3⟩

/-- C8 witness: the theorem evaluated on ["bat", "bet"], two words sharing
the code B300, of which the first is kept. -/
theorem c8_witness :
    (((["bat"] : List String).map soundex).Nodup) ∧
      ∀ w ∈ (["bat"] : List String),
        ((["bat", "bet"] : List String).filter
          (fun v => decide (soundex v = soundex w))).head? = some w :=
  c8_dedup_distinct_first {} ["bat", "bet"] ["bat"] rfl (by decide)

/-- C10: the phonetic code computation is undefined on the empty word: the
empty string passes every default filter, and getWords under the default
configuration (phoneticDistinct true) propagates the TypeError raised while
computing its code instead of returning a result. -/
theorem c10_empty_word_throws (words : List String) (n : Int)
    (rand : Nat → Nat) (hmem : "" ∈ words) (hn : 0 < n) :
    getWords {} (some n) words rand = .error soundexTypeError := by
  have h1 : ¬ n ≤ 0 := not_le.mpr hn
  have h2 : ¬ n = 0 := by omega
  have hf : "" ∈ filterStage ({} : Options) words :=
    List.mem_filter.mpr ⟨hmem, by decide⟩
  have hd : dedupStage ({} : Options) (filterStage {} words) =
      .error soundexTypeError :=
    phoneticDedup_error_of_mem (filterStage {} words) [] hf
  simp only [getWords, if_neg h1, if_neg h2]
  unfold runPipeline
  rw [hd]

/-- C10 witness: the theorem evaluated on the one-element list containing
the empty word. -/
theorem c10_witness :
    getWords {} (some 1) [""] (fun _ => 0) = .error soundexTypeError :=
  c10_empty_word_throws [""] 1 (fun _ => 0) (by decide) (by decide)

/-- C9: the length-filter plus ascending sort scenario: for every ambient
random stream, the three surviving words are returned in case-insensitive
ascending order, as the sort fully determines the pre-truncation order. -/
theorem c9_sort_scenario (rand : Nat → Nat) :
    getWords { lengthMin := some 4, sort := some "asc" } (some 3)
      ["apple", "ant", "banana", "bee", "crab"] rand =
      .ok (.arr ["apple", "banana", "crab"],
        insert "crab" (insert "banana" (insert "apple" ∅))) := by
  have hpre : getWords { lengthMin := some 4, sort := some "asc" } (some 3)
      ["apple", "ant", "banana", "bee", "crab"] rand =
      .ok (postStage { lengthMin := some 4, sort := some "asc" } 3
        (sortStage { lengthMin := some 4, sort := some "asc" }
          (shuffleStage { lengthMin := some 4, sort := some "asc" } rand
            ["apple", "banana", "crab"]))) := rfl
  have key : sortStage { lengthMin := some 4, sort := some "asc" }
      (shuffleStage { lengthMin := some 4, sort := some "asc" } rand
        ["apple", "banana", "crab"]) = ["apple", "banana", "crab"] := by
    show sortLe (fun a b => ciLe a b)
        (swapL (swapL ["apple", "banana", "crab"] 2 (rand 0 % 3)) 1
          (rand 1 % 2)) = ["apple", "banana", "crab"]
    have h0 : rand 0 % 3 < 3 := Nat.mod_lt _ (by norm_num)
    have h1 : rand 1 % 2 < 2 := Nat.mod_lt _ (by norm_num)
    revert h0 h1
    generalize rand 0 % 3 = a
    generalize rand 1 % 2 = b
    intro h0 h1
    rcases (by omega : a = 0 ∨ a = 1 ∨ a = 2) with ha | ha | ha <;>
      rcases (by omega : b = 0 ∨ b = 1) with hb | hb <;>
        subst ha <;> subst hb <;> decide
  rw [hpre, key]
  decide
